import Mathlib

/-!
Formal model of the Expo SQLite client adapter
(src/packages/sql-sqlite-expo/src/SqliteClient.ts).

The adapter exposes the embedded engine's synchronous call surface through
the generic SQL-client abstraction: connection operations (execute,
executeRaw, executeValues, executeUnprepared, executeStream), a module-level
open-handle guard (dbRef), a best-effort close finalizer, a capacity-1
semaphore serialising access to the single connection, and the exported
snake/camel casing transforms.  Pure parts are translated directly; the
semaphore, scope and interruption semantics (effect-core code that the
adapter calls into) are modelled operationally, following the documented
behaviour of those combinators.
-/

/- ### Casing transforms (source lines 212-229)

JS strings are modelled as lists of UTF-16 code units (natural numbers);
the claims only concern ASCII letters, `_` (95) and `-` (45). -/

/-- ASCII uppercase letter test, `A`-`Z` (codes 65-90). -/
def isUpperCode (c : Nat) : Bool := decide (65 ≤ c ∧ c ≤ 90)

/-- ASCII lowercase letter test, `a`-`z` (codes 97-122). -/
def isLowerCode (c : Nat) : Bool := decide (97 ≤ c ∧ c ≤ 122)

/-- ASCII letter test. -/
def isLetterCode (c : Nat) : Bool := isUpperCode c || isLowerCode c

/-- `String.prototype.toLowerCase` restricted to the ASCII plane: uppercase
letters move down 32 code points, everything else is unchanged. -/
def toLowerCode (c : Nat) : Nat := if isUpperCode c then c + 32 else c

/-- `String.prototype.toUpperCase` on a single ASCII character, as used by
the replacement callback in `snakeToCamel`. -/
def toUpperCode (c : Nat) : Nat := if isLowerCode c then c - 32 else c

/-- `transform.camelToSnake` (source line 228):
`str.replace(/[A-Z]/g, letter => "_" + letter.toLowerCase())`.
Each uppercase letter is replaced by `_` (code 95) followed by its lowercase
form; every other character is kept. -/
def camelToSnake : List Nat → List Nat
  | [] => []
  | c :: cs =>
    if isUpperCode c then 95 :: toLowerCode c :: camelToSnake cs
    else c :: camelToSnake cs

/-- The global regex replacement in `transform.snakeToCamel` (source lines
218-221): `/([-_][a-z])/g` scans left to right without overlap; each match
of `-` or `_` followed by a lowercase letter is replaced by that letter
uppercased, and scanning resumes after the match. -/
def snakeReplace : List Nat → List Nat
  | [] => []
  | [c] => [c]
  | c :: d :: cs =>
    if (c == 95 || c == 45) && isLowerCode d then
      toUpperCode d :: snakeReplace cs
    else
      c :: snakeReplace (d :: cs)

/-- `transform.snakeToCamel` (source lines 218-221): lowercase the whole
string, then apply the `/([-_][a-z])/g` replacement. -/
def snakeToCamel (s : List Nat) : List Nat := snakeReplace (s.map toLowerCode)

/- ### Rows, values and the connection operations (source lines 110-139)

A row returned by `db.getAllSync` is a JS object: an ordered list of
distinct keys with values.  `Object.keys` returns the keys in insertion
order; property access on an absent key yields `undefined`, modelled as
`none`. -/

/-- A JS value stored in a result row or bound as a parameter. -/
inductive Value
  | vnull
  | vint (n : Int)
  | vtext (s : String)
deriving DecidableEq, Repr

/-- A result row: a JS object as an ordered association list. -/
def Row : Type := List (String × Value)

instance : DecidableEq Row := by
  unfold Row
  infer_instance

/-- `Object.keys row`: the keys in insertion order (source line 129). -/
def rowKeys (r : Row) : List String := r.map Prod.fst

/-- JS property access `row[column]`: the value at the first matching key,
`undefined` (`none`) when the key is absent (source line 130). -/
def rowGet (r : Row) (c : String) : Option Value :=
  (r.find? (fun kv => kv.1 == c)).map Prod.snd

/-- Outcome of running one of the connection operations to completion:
a success value, a recoverable typed failure (the `SqlError` channel of the
generic SQL-client abstraction), or a fiber defect. -/
inductive RunResult (α : Type)
  | succ (a : α)
  | fail (e : String)
  | die (msg : String)
deriving DecidableEq, Repr

/-- `Effect.map` on a completed outcome. -/
def mapResult {α β : Type} (f : α → β) : RunResult α → RunResult β
  | .succ a => .succ (f a)
  | .fail e => .fail e
  | .die m => .die m

/-- The embedded engine's `db.getAllSync`: given sql text and positional
parameters it either returns all rows or throws (modelled as `.error` with
the thrown message).  External collaborator, kept abstract as a parameter. -/
def Engine : Type := String → List Value → Except String (List Row)

/-- `run` (source lines 110-113): `Effect.succeed(db.getAllSync(sql, ...params))`.
`Effect.succeed` has no error channel and its argument is evaluated when the
connection method is invoked inside the runtime, so a throwing engine call
can never become a typed recoverable failure: the exception escapes into
the runtime and kills the fiber as a defect.  A successful call wraps the
rows in the success channel. -/
def run (engine : Engine) (sql : String) (params : List Value) : RunResult (List Row) :=
  match engine sql params with
  | .ok rows => .succ rows
  | .error msg => .die msg

/-- `execute` (source lines 116-120): run the statement, applying the
optional row transform to the full result array. -/
def execute (engine : Engine) (sql : String) (params : List Value)
    (transformRows : Option (List Row → List Row)) : RunResult (List Row) :=
  match transformRows with
  | some f => mapResult f (run engine sql params)
  | none => run engine sql params

/-- `executeRaw` (source lines 121-123). -/
def executeRaw (engine : Engine) (sql : String) (params : List Value) :
    RunResult (List Row) :=
  run engine sql params

/-- The body of the `Effect.map` in `executeValues` (source lines 125-131):
zero rows give `[]`; otherwise the column list is `Object.keys` of the
first row and every row is projected onto those columns in order. -/
def valuesOf (results : List Row) : List (List (Option Value)) :=
  match results with
  | [] => []
  | r0 :: rest =>
    (r0 :: rest).map (fun row => (rowKeys r0).map (fun c => rowGet row c))

/-- `executeValues` (source lines 124-132). -/
def executeValues (engine : Engine) (sql : String) (params : List Value) :
    RunResult (List (List (Option Value))) :=
  mapResult valuesOf (run engine sql params)

/-- `executeUnprepared` (source lines 133-135): delegates to `execute`. -/
def executeUnprepared (engine : Engine) (sql : String) (params : List Value)
    (transformRows : Option (List Row → List Row)) : RunResult (List Row) :=
  execute engine sql params transformRows

/-- `executeStream` (source lines 136-138):
`Effect.dieMessage("executeStream not implemented")`, ignoring its input. -/
def executeStream (sql : String) (params : List Value) : RunResult (List Row) :=
  .die "executeStream not implemented"

/- ### Module-level handle lifecycle (source lines 82, 96-109) -/

/-- The module-level mutable state: the `dbRef` guard flag and, to observe
handle creation, the number of `openDatabaseSync` calls made so far. -/
structure ModuleState where
  dbRef : Bool
  openCount : Nat
deriving DecidableEq, Repr

/-- `makeConnection` entry (source lines 96-99): when `dbRef` is set the
generator returns immediately (no engine call, no error, no connection);
otherwise it sets the flag, opens the database and yields the fresh handle
(identified by its creation index). -/
def makeConnection (s : ModuleState) : ModuleState × Option Nat :=
  if s.dbRef then (s, none)
  else (⟨true, s.openCount + 1⟩, some s.openCount)

/-- The `try { db.closeSync() } catch { /* nothing to do */ }` statement of
the finalizer (source lines 102-106): both outcomes of the engine close are
swallowed. -/
def closeSyncAttempt (engineClose : Except String Unit) : Unit :=
  match engineClose with
  | .ok u => u
  | .error _ => ()

/-- The close finalizer registered by `Effect.addFinalizer` (source lines
100-109): attempt the engine close, swallow any throw, then clear `dbRef`
unconditionally.  The `Except` result records whether the finalizer itself
raises. -/
def closeFinalizer (engineClose : Except String Unit) (s : ModuleState) :
    Except String ModuleState :=
  let _ := closeSyncAttempt engineClose
  Except.ok ⟨false, s.openCount⟩

/- ### The connection gate: capacity-1 semaphore (source lines 142-154)

`Effect.makeSemaphore(1)` and the combinators `withPermits`, `take`,
`release`, `uninterruptibleMask` and `Scope.addFinalizer` are effect-core
code; they are modelled operationally below.

First, an interleaving model for mutual exclusion: any number of fibers,
each either a plain statement or a transaction, compete for the single
permit.  A fiber is `idle` before requesting access, `waiting` while
suspended on the permit, `holding` from acquisition to release (the span in
which its statements run against the handle), and `done` afterwards.
Waiters may be cancelled before acquiring; holders release on completion or
unwind. -/

/-- Which acquisition mode a fiber uses. -/
inductive Kind
  | statement
  | transaction
deriving DecidableEq, Repr

/-- The lifecycle phase of one fiber competing for the connection. -/
inductive Phase
  | idle (k : Kind)
  | waiting (k : Kind)
  | holding (k : Kind)
  | done (k : Kind)
deriving DecidableEq, Repr

/-- Whether a fiber currently holds the permit (and so may touch the
database handle). -/
def isHolding : Phase → Bool
  | .holding _ => true
  | _ => false

/-- Global state of the gate: free permits of the capacity-1 semaphore and
the multiset of fiber phases. -/
structure GateState where
  permits : Nat
  fibers : Multiset Phase

/-- Number of fibers currently holding the permit. -/
def countHolding (m : Multiset Phase) : Nat :=
  (m.filter (fun p => isHolding p = true)).card

/-- One interleaving step of the gate.  `acquire` requires a free permit
(`permits = p + 1`) and consumes it; `release` returns it; `cancelWait`
models a waiter cancelled before acquisition (it never took the permit). -/
inductive Step : GateState → GateState → Prop
  | start (p : Nat) (k : Kind) (rest : Multiset Phase) :
      Step ⟨p, Phase.idle k ::ₘ rest⟩ ⟨p, Phase.waiting k ::ₘ rest⟩
  | acquire (p : Nat) (k : Kind) (rest : Multiset Phase) :
      Step ⟨p + 1, Phase.waiting k ::ₘ rest⟩ ⟨p, Phase.holding k ::ₘ rest⟩
  | cancelWait (p : Nat) (k : Kind) (rest : Multiset Phase) :
      Step ⟨p, Phase.waiting k ::ₘ rest⟩ ⟨p, Phase.done k ::ₘ rest⟩
  | release (p : Nat) (k : Kind) (rest : Multiset Phase) :
      Step ⟨p, Phase.holding k ::ₘ rest⟩ ⟨p + 1, Phase.done k ::ₘ rest⟩

/-- The permit-accounting invariant of the capacity-1 semaphore: free
permits plus holders is always exactly one. -/
def gateInv (s : GateState) : Prop := s.permits + countHolding s.fibers = 1

/- ### Single-fiber trace semantics for the two acquirers

A small effect language covering exactly the combinators the acquirers are
built from, interpreted against the semaphore with an explicit interruption
schedule: at every interruptible action the schedule decides whether the
fiber is cancelled first.  Finalizers (of `ensuring` and of the enclosing
scope) always run uninterruptibly, as effect-core guarantees. -/

/-- Observable events on the shared resources. -/
inductive Ev
  | take
  | release
  | exec
deriving DecidableEq, Repr

/-- How an effect finished. -/
inductive Exitc
  | succ
  | failed
  | died
  | interrupted
  | stuck
deriving DecidableEq, Repr

/-- Outcome of the engine call made by a statement: rows, a thrown
recoverable-level error, or a defect. -/
inductive EngR
  | ok
  | err
  | boom
deriving DecidableEq, Repr

/-- The exit produced by a statement whose engine call had outcome `r`. -/
def engExit : EngR → Exitc
  | .ok => .succ
  | .err => .failed
  | .boom => .died

/-- Effects built from the combinators used at source lines 145-154:
`semaphore.take(1)`, `semaphore.release(1)`, the statement body, sequencing
(`zipRight` / `flatMap`), `ensuring`, `uninterruptibleMask` with its
`restore`, and `Scope.addFinalizer` against the current scope. -/
inductive Eff
  | take
  | release
  | stmt (r : EngR)
  | seq (x y : Eff)
  | ensuring (x fin : Eff)
  | mask (x : Eff)
  | restore (x : Eff)
  | addFin (fin : Eff)

/-- Semaphore permits together with the finalizers registered so far in the
enclosing scope (most recent first, as scopes run them). -/
structure SemSt where
  permits : Nat
  fins : List Eff

/-- Result of interpreting one effect: the event trace it produced, its
exit, the final shared state and the next interruption-schedule index. -/
structure Out where
  trace : List Ev
  exit : Exitc
  st : SemSt
  k : Nat

/-- Interpreter.  `ui = true` means the fiber is currently uninterruptible.
Before each atomic action of an interruptible fiber the schedule is
consulted; `true` cancels the fiber there.  `take` suspends forever
(`stuck`) when no permit is free — in this single-fiber semantics nobody
else can release one.  `ensuring` runs its finalizer uninterruptibly on
every completion (success, failure, defect, interruption); `restore`
re-enables interruption inside a mask (both masks in the source occur in an
interruptible context). -/
def interp (sched : Nat → Bool) : Eff → Bool → Nat → SemSt → Out
  | .take, ui, k, s =>
    if !ui && sched k then ⟨[], .interrupted, s, k + 1⟩
    else if s.permits = 0 then ⟨[], .stuck, s, k + 1⟩
    else ⟨[.take], .succ, ⟨s.permits - 1, s.fins⟩, k + 1⟩
  | .release, ui, k, s =>
    if !ui && sched k then ⟨[], .interrupted, s, k + 1⟩
    else ⟨[.release], .succ, ⟨s.permits + 1, s.fins⟩, k + 1⟩
  | .stmt r, ui, k, s =>
    if !ui && sched k then ⟨[], .interrupted, s, k + 1⟩
    else ⟨[.exec], engExit r, s, k + 1⟩
  | .addFin fin, ui, k, s =>
    if !ui && sched k then ⟨[], .interrupted, s, k + 1⟩
    else ⟨[], .succ, ⟨s.permits, fin :: s.fins⟩, k + 1⟩
  | .seq x y, ui, k, s =>
    let o1 := interp sched x ui k s
    if o1.exit = .succ then
      let o2 := interp sched y ui o1.k o1.st
      ⟨o1.trace ++ o2.trace, o2.exit, o2.st, o2.k⟩
    else o1
  | .ensuring x fin, ui, k, s =>
    let o1 := interp sched x ui k s
    if o1.exit = .stuck then o1
    else
      let o2 := interp sched fin true o1.k o1.st
      ⟨o1.trace ++ o2.trace, if o2.exit = .succ then o1.exit else o2.exit, o2.st, o2.k⟩
  | .mask x, _, k, s => interp sched x true k s
  | .restore x, _, k, s => interp sched x false k s

/-- Run the finalizers registered in a scope, in order, uninterruptibly —
what closing the enclosing scope does on every exit mode. -/
def runFins (sched : Nat → Bool) : List Eff → Nat → SemSt → List Ev × SemSt × Nat
  | [], k, s => ([], s, k)
  | f :: rest, k, s =>
    let o := interp sched f true k s
    let r := runFins sched rest o.k o.st
    (o.trace ++ r.1, r.2.1, r.2.2)

/-- Closing the scope: run all registered finalizers and clear them. -/
def closeScope (sched : Nat → Bool) (k : Nat) (s : SemSt) : List Ev × SemSt × Nat :=
  let r := runFins sched s.fins k ⟨s.permits, []⟩
  r

/-- Modelled from the spec: the single-statement acquirer (source line 145,
`semaphore.withPermits(1)(Effect.succeed(connection))` consumed by the
SQL-client layer, whose `withPermits` implementation is effect-core code
outside this file's source).  Per the spec it takes the single permit with
the wait left cancellable, runs the caller's unit of work — the statement
with engine outcome `r` — and releases the permit when that unit of work
completes, on success, failure or cancellation alike. -/
def statementPath (r : EngR) : Eff :=
  .mask (.seq (.restore .take) (.ensuring (.restore (.stmt r)) .release))

/-- `transactionAcquirer` (source lines 146-154): inside
`uninterruptibleMask`, `restore(semaphore.take(1))` is sequenced with
`Effect.tap(Effect.scope, scope => Scope.addFinalizer(scope,
semaphore.release(1)))`; the final `Effect.as(..., connection)` only picks
the value.  The wait for the permit is restored (cancellable); the
registration of the release finalizer stays inside the mask. -/
def txPath : Eff :=
  .mask (.seq (.restore .take) (.addFin .release))

/- ### Concrete inputs used to instantiate the theorems -/

/-- An engine that throws on every call, as `db.getAllSync` does on
malformed SQL such as `SELEC 1`. -/
def failingEngine : Engine := fun _ _ => .error "no such table / syntax error"

/-- First result row of the sample query: keys `a`, `b` in that order. -/
def sampleRow0 : Row := [("a", Value.vint 1), ("b", Value.vint 2)]

/-- Second result row: keys `b`, `c` — a different order than the first
row, with key `a` missing and key `c` extra. -/
def sampleRow1 : Row := [("b", Value.vint 4), ("c", Value.vint 3)]

/-- An engine returning the two sample rows for every query. -/
def sampleEngine : Engine := fun _ _ => .ok [sampleRow0, sampleRow1]

/-- An engine returning zero rows for every query. -/
def emptyEngine : Engine := fun _ _ => .ok []

/- ### Helper lemmas -/

theorem isLowerCode_add32 {c : Nat} (h : isUpperCode c = true) :
    isLowerCode (c + 32) = true := by
  simp [isUpperCode, isLowerCode] at *
  omega

theorem toUpperCode_add32 {c : Nat} (h : isUpperCode c = true) :
    toUpperCode (c + 32) = c := by
  have h2 := isLowerCode_add32 h
  simp [toUpperCode, h2]

theorem toLowerCode_of_upper {c : Nat} (h : isUpperCode c = true) :
    toLowerCode c = c + 32 := by
  simp [toLowerCode, h]

theorem not_sep_of_letter {c : Nat} (h : isLetterCode c = true) :
    (c == 95 || c == 45) = false := by
  simp [isLetterCode, isUpperCode, isLowerCode] at h
  simp only [Bool.or_eq_false_iff, beq_eq_false_iff_ne, ne_eq]
  omega

theorem snakeReplace_cons_of_letter {c : Nat} (t : List Nat)
    (h : isLetterCode c = true) :
    snakeReplace (c :: t) = c :: snakeReplace t := by
  cases t with
  | nil => simp [snakeReplace]
  | cons d cs =>
    have hs := not_sep_of_letter h
    simp [snakeReplace, hs]

theorem isUpperCode_toLowerCode_false (c : Nat) :
    isUpperCode (toLowerCode c) = false := by
  cases hx : isUpperCode c
  · simp [toLowerCode, hx]
  · have h2 : 65 ≤ c ∧ c ≤ 90 := by simpa [isUpperCode] using hx
    have h3 : toLowerCode c = c + 32 := by simp [toLowerCode, hx]
    rw [h3]
    simp [isUpperCode]
    omega

theorem toLowerCode_idem (c : Nat) :
    toLowerCode (toLowerCode c) = toLowerCode c := by
  have h := isUpperCode_toLowerCode_false c
  show (if isUpperCode (toLowerCode c) then toLowerCode c + 32 else toLowerCode c) =
    toLowerCode c
  simp [h]

theorem camelToSnake_lower_fixed (s : List Nat) :
    (camelToSnake s).map toLowerCode = camelToSnake s := by
  induction s with
  | nil => simp [camelToSnake]
  | cons c cs ih =>
    by_cases hu : isUpperCode c = true
    · have h95 : toLowerCode 95 = 95 := by decide
      simp [camelToSnake, hu, h95, toLowerCode_idem, ih]
    · have hb : isUpperCode c = false := by
        cases hx : isUpperCode c
        · rfl
        · exact absurd hx hu
      have hfix : toLowerCode c = c := by simp [toLowerCode, hb]
      simp [camelToSnake, hb, hfix, ih]

theorem snakeReplace_camelToSnake (s : List Nat)
    (h : ∀ c ∈ s, isLetterCode c = true) :
    snakeReplace (camelToSnake s) = s := by
  induction s with
  | nil => simp [camelToSnake, snakeReplace]
  | cons c cs ih =>
    have hc : isLetterCode c = true := h c (by simp)
    have ih2 := ih (fun x hx => h x (by simp [hx]))
    by_cases hu : isUpperCode c = true
    · have hl := isLowerCode_add32 hu
      have ht := toUpperCode_add32 hu
      have hlow := toLowerCode_of_upper hu
      simp [camelToSnake, hu, hlow, snakeReplace, hl, ht, ih2]
    · have hb : isUpperCode c = false := by
        cases hx : isUpperCode c
        · rfl
        · exact absurd hx hu
      have hstep : camelToSnake (c :: cs) = c :: camelToSnake cs := by
        simp [camelToSnake, hb]
      rw [hstep, snakeReplace_cons_of_letter _ hc, ih2]

theorem countHolding_cons_holding (k : Kind) (m : Multiset Phase) :
    countHolding (Phase.holding k ::ₘ m) = countHolding m + 1 := by
  simp [countHolding, Multiset.filter_cons, isHolding]

theorem countHolding_cons_not (p : Phase) (m : Multiset Phase)
    (h : isHolding p = false) :
    countHolding (p ::ₘ m) = countHolding m := by
  simp [countHolding, Multiset.filter_cons, h]

theorem gateInv_step {s t : GateState} (hs : gateInv s) (h : Step s t) :
    gateInv t := by
  cases h with
  | start p k rest =>
    have hs2 : p + countHolding (Phase.idle k ::ₘ rest) = 1 := hs
    show p + countHolding (Phase.waiting k ::ₘ rest) = 1
    rw [countHolding_cons_not (Phase.idle k) rest rfl] at hs2
    rw [countHolding_cons_not (Phase.waiting k) rest rfl]
    exact hs2
  | acquire p k rest =>
    have hs2 : p + 1 + countHolding (Phase.waiting k ::ₘ rest) = 1 := hs
    show p + countHolding (Phase.holding k ::ₘ rest) = 1
    rw [countHolding_cons_not (Phase.waiting k) rest rfl] at hs2
    rw [countHolding_cons_holding k rest]
    omega
  | cancelWait p k rest =>
    have hs2 : p + countHolding (Phase.waiting k ::ₘ rest) = 1 := hs
    show p + countHolding (Phase.done k ::ₘ rest) = 1
    rw [countHolding_cons_not (Phase.waiting k) rest rfl] at hs2
    rw [countHolding_cons_not (Phase.done k) rest rfl]
    exact hs2
  | release p k rest =>
    have hs2 : p + countHolding (Phase.holding k ::ₘ rest) = 1 := hs
    show p + 1 + countHolding (Phase.done k ::ₘ rest) = 1
    rw [countHolding_cons_holding k rest] at hs2
    rw [countHolding_cons_not (Phase.done k) rest rfl]
    omega

theorem gateInv_reachable {s t : GateState} (hs : gateInv s)
    (h : Relation.ReflTransGen Step s t) : gateInv t := by
  induction h with
  | refl => exact hs
  | tail _ h2 ih => exact gateInv_step ih h2

/- ### Claim theorems -/

/-- Claim C1: for any number of fibers competing for the same handle, with
one free permit and no holder initially, every state reachable under gate
interleaving has at most one fiber holding the permit — mutual exclusion
between any two statements, and between a statement and a concurrently held
transaction. -/
theorem gate_mutual_exclusion (m : Multiset Phase) (t : GateState)
    (hstart : countHolding m = 0)
    (h : Relation.ReflTransGen Step ⟨1, m⟩ t) :
    countHolding t.fibers ≤ 1 := by
  have hinv : gateInv ⟨1, m⟩ := by
    show 1 + countHolding m = 1
    omega
  have hfin := gateInv_reachable hinv h
  have : t.permits + countHolding t.fibers = 1 := hfin
  omega

/-- Witness for C1 at a concrete input: two fibers, the statement fiber
starts waiting and then acquires the permit; the reached state has at most
one holder. -/
theorem gate_mutual_exclusion_witness :
    countHolding (Phase.idle Kind.statement ::ₘ Phase.idle Kind.transaction ::ₘ 0) = 0 ∧
    countHolding (GateState.mk 0
      (Phase.holding Kind.statement ::ₘ Phase.idle Kind.transaction ::ₘ 0)).fibers ≤ 1 :=
  ⟨by decide,
    gate_mutual_exclusion
      (Phase.idle Kind.statement ::ₘ Phase.idle Kind.transaction ::ₘ 0)
      (GateState.mk 0 (Phase.holding Kind.statement ::ₘ Phase.idle Kind.transaction ::ₘ 0))
      (by decide)
      (Relation.ReflTransGen.tail
        (Relation.ReflTransGen.tail Relation.ReflTransGen.refl
          (Step.start 1 Kind.statement (Phase.idle Kind.transaction ::ₘ 0)))
        (Step.acquire 0 Kind.statement (Phase.idle Kind.transaction ::ₘ 0)))⟩

/-- Claim C2: under every interruption schedule and every engine outcome,
the statement acquirer leaves the permit balanced and registers nothing in
the scope, and its trace is one of: cancelled before acquiring (no events),
cancelled after acquiring but before the statement (take then release), or
the full run (take, the statement, then release) finishing with the
statement's own exit — so the permit is held for the whole statement and is
released on success, failure and cancellation alike, never before the
statement runs. -/
theorem acquirer_releases_after_statement (sched : Nat → Bool) (r : EngR) :
    (interp sched (statementPath r) false 0 ⟨1, []⟩).st.permits = 1 ∧
    (interp sched (statementPath r) false 0 ⟨1, []⟩).st.fins = [] ∧
    ((interp sched (statementPath r) false 0 ⟨1, []⟩).trace = [] ∧
       (interp sched (statementPath r) false 0 ⟨1, []⟩).exit = Exitc.interrupted ∨
     (interp sched (statementPath r) false 0 ⟨1, []⟩).trace = [Ev.take, Ev.release] ∧
       (interp sched (statementPath r) false 0 ⟨1, []⟩).exit = Exitc.interrupted ∨
     (interp sched (statementPath r) false 0 ⟨1, []⟩).trace = [Ev.take, Ev.exec, Ev.release] ∧
       (interp sched (statementPath r) false 0 ⟨1, []⟩).exit = engExit r) := by
  cases h0 : sched 0 <;> cases h1 : sched 1 <;> cases r <;>
    simp [statementPath, interp, engExit, h0, h1]

/-- Claim C3: under every interruption schedule the transaction acquirer
either is cancelled while still waiting — no permit taken, no finalizer
registered — or it takes the permit, does not release it (no release event
in its trace), and registers exactly one release finalizer in the enclosing
scope; closing that scope, under any schedule and so on every exit mode,
runs that release exactly once and restores the permit.  There is no
middle case with the permit taken and no finalizer registered: the hand-off
is uninterruptible while the wait itself stays cancellable. -/
theorem transactionAcquirer_scoped_release (sched : Nat → Bool) :
    ((interp sched txPath false 0 ⟨1, []⟩).trace = [] ∧
     (interp sched txPath false 0 ⟨1, []⟩).exit = Exitc.interrupted ∧
     (interp sched txPath false 0 ⟨1, []⟩).st.permits = 1 ∧
     (interp sched txPath false 0 ⟨1, []⟩).st.fins = []) ∨
    ((interp sched txPath false 0 ⟨1, []⟩).trace = [Ev.take] ∧
     (interp sched txPath false 0 ⟨1, []⟩).exit = Exitc.succ ∧
     (interp sched txPath false 0 ⟨1, []⟩).st.permits = 0 ∧
     (interp sched txPath false 0 ⟨1, []⟩).st.fins = [Eff.release] ∧
     ∀ (sched2 : Nat → Bool) (k2 : Nat),
       (closeScope sched2 k2 (interp sched txPath false 0 ⟨1, []⟩).st).1 = [Ev.release] ∧
       (closeScope sched2 k2 (interp sched txPath false 0 ⟨1, []⟩).st).2.1.permits = 1 ∧
       (closeScope sched2 k2 (interp sched txPath false 0 ⟨1, []⟩).st).2.1.fins = []) := by
  cases h0 : sched 0 with
  | true =>
    left
    simp [txPath, interp, h0]
  | false =>
    right
    simp [txPath, interp, h0, closeScope, runFins]

/-- Claim C4: the streaming operation fails with a defect for every input;
it never succeeds with any (empty or partial) row sequence and never fails
with a recoverable error. -/
theorem executeStream_always_dies (sql : String) (params : List Value) :
    executeStream sql params = RunResult.die "executeStream not implemented" ∧
    (∀ rows, executeStream sql params ≠ RunResult.succ rows) ∧
    (∀ e, executeStream sql params ≠ RunResult.fail e) := by
  refine ⟨rfl, ?_, ?_⟩ <;> intro x <;> simp [executeStream]

/-- Claim C5 (divergence): an engine throw on malformed SQL surfaces as a
defect, and `run` can never produce a recoverable failure for any engine —
because the source wraps `db.getAllSync` in `Effect.succeed`, which has no
error channel — contradicting the claim that engine errors propagate as
recoverable errors and never as defects. -/
theorem run_engine_error_is_defect :
    run failingEngine "SELEC 1" [] = RunResult.die "no such table / syntax error" ∧
    ∀ (engine : Engine) (sql : String) (params : List Value) (e : String),
      run engine sql params ≠ RunResult.fail e := by
  constructor
  · rfl
  · intro engine sql params e
    unfold run
    cases engine sql params <;> simp

/-- Claim C6: a second open call while a handle is live is silently
skipped: the module state is unchanged (no engine open call, so no new
handle) and no connection is produced, with no error path taken. -/
theorem makeConnection_skips_when_open (s : ModuleState) (h : s.dbRef = true) :
    makeConnection s = (s, none) := by
  simp [makeConnection, h]

/-- Witness for C6: a live handle (`dbRef = true`) at a concrete state. -/
theorem makeConnection_skips_when_open_witness :
    (ModuleState.mk true 1).dbRef = true ∧
    makeConnection (ModuleState.mk true 1) = (ModuleState.mk true 1, none) :=
  ⟨rfl, makeConnection_skips_when_open (ModuleState.mk true 1) rfl⟩

/-- Claim C7: the close finalizer never raises, whatever the engine close
does (success or throw), and unconditionally clears the open-handle flag;
closing a second time also does not raise; and after closing, a new open
call produces a connection again. -/
theorem closeFinalizer_best_effort (ec1 ec2 : Except String Unit) (s : ModuleState) :
    closeFinalizer ec1 s = Except.ok (ModuleState.mk false s.openCount) ∧
    closeFinalizer ec2 (ModuleState.mk false s.openCount) =
      Except.ok (ModuleState.mk false s.openCount) ∧
    (makeConnection (ModuleState.mk false s.openCount)).2.isSome = true := by
  refine ⟨rfl, rfl, ?_⟩
  simp [makeConnection]

/-- Claim C8: for every engine, sql string, parameter list and optional row
transform, `executeUnprepared` returns exactly the same result — including
identical failure behaviour — as `execute`. -/
theorem executeUnprepared_eq_execute (engine : Engine) (sql : String)
    (params : List Value) (tf : Option (List Row → List Row)) :
    executeUnprepared engine sql params tf = execute engine sql params tf := rfl

/-- Claim C9: `executeValues` yields the empty list when the engine returns
zero rows, and otherwise one value tuple per row, where every tuple —
including those of later rows with reordered, extra or missing keys — lists
the values in the column order given by the keys of the first row. -/
theorem executeValues_columns_from_first_row (engine : Engine) (sql : String)
    (params : List Value) :
    (engine sql params = Except.ok [] →
      executeValues engine sql params = RunResult.succ []) ∧
    (∀ (r0 : Row) (rest : List Row), engine sql params = Except.ok (r0 :: rest) →
      executeValues engine sql params =
        RunResult.succ ((r0 :: rest).map
          (fun row => (rowKeys r0).map (fun c => rowGet row c)))) := by
  constructor
  · intro h
    simp [executeValues, run, h, mapResult, valuesOf]
  · intro r0 rest h
    simp [executeValues, run, h, mapResult, valuesOf]

/-- Witness for C9: a first row with keys `a`, `b` and a second row with
keys `b`, `c` (different order, `a` missing, `c` extra): the second tuple
still follows the first row's column order, with `none` for the missing
key; and a zero-row engine yields the empty list. -/
theorem executeValues_columns_from_first_row_witness :
    sampleEngine "q" [] = Except.ok [sampleRow0, sampleRow1] ∧
    emptyEngine "q" [] = Except.ok [] ∧
    executeValues sampleEngine "q" [] = RunResult.succ
      [[some (Value.vint 1), some (Value.vint 2)], [none, some (Value.vint 4)]] ∧
    executeValues emptyEngine "q" [] = RunResult.succ [] := by
  refine ⟨rfl, rfl, ?_, ?_⟩
  · have h := (executeValues_columns_from_first_row sampleEngine "q" []).2
      sampleRow0 [sampleRow1] rfl
    rw [h]
    rfl
  · exact (executeValues_columns_from_first_row emptyEngine "q" []).1 rfl

/-- Claim C10: on a camelCase identifier — ASCII letters only, first
character lowercase, hence no underscores, hyphens or digits — applying
`camelToSnake` and then `snakeToCamel` returns the original string. -/
theorem transform_roundtrip_camel (s : List Nat)
    (hletters : ∀ c ∈ s, isLetterCode c = true)
    (_hfirst : ∀ c ∈ s.take 1, isLowerCode c = true) :
    snakeToCamel (camelToSnake s) = s := by
  unfold snakeToCamel
  rw [camelToSnake_lower_fixed]
  exact snakeReplace_camelToSnake s hletters

/-- Witness for C10 on the concrete identifier `aBc` (codes 97, 66, 99). -/
theorem transform_roundtrip_camel_witness :
    (∀ c ∈ [97, 66, 99], isLetterCode c = true) ∧
    (∀ c ∈ ([97, 66, 99] : List Nat).take 1, isLowerCode c = true) ∧
    snakeToCamel (camelToSnake [97, 66, 99]) = [97, 66, 99] :=
  ⟨by decide, by decide,
    transform_roundtrip_camel [97, 66, 99] (by decide) (by decide)⟩
